import Mathlib

/-!
Shallow embedding of the flagame scrapers (src/scrape_flags.py and
src/scrape_flags_proportions.py) and proofs of the specification claims.
Strings are modelled as lists of characters; machine behaviour that touches
the network or the file system is modelled by explicit oracles and
operation traces.
-/

namespace Flagame

/-- The plain apostrophe character (codepoint 39). -/
def apos : Char := Char.ofNat 39

/-- The separator character produced by the normalizer (underscore, codepoint 95). -/
def usep : Char := Char.ofNat 95

/-- Models Python unicodedata.normalize NFKD restricted to the characters this
development evaluates: the accented Latin letters appearing in the source and
the spec examples decompose into base letter plus combining mark; ASCII
characters (which have no NFKD decomposition) and all other characters are
returned unchanged. -/
def nfkd (c : Char) : List Char :=
  if c.toNat < 128 then [c]
  else if c.toNat = 0xC0 then ['A', Char.ofNat 0x300]
  else if c.toNat = 0xC7 then ['C', Char.ofNat 0x327]
  else if c.toNat = 0xC8 then ['E', Char.ofNat 0x300]
  else if c.toNat = 0xC9 then ['E', Char.ofNat 0x301]
  else if c.toNat = 0xCA then ['E', Char.ofNat 0x302]
  else if c.toNat = 0xCE then ['I', Char.ofNat 0x302]
  else if c.toNat = 0xD4 then ['O', Char.ofNat 0x302]
  else if c.toNat = 0xDB then ['U', Char.ofNat 0x302]
  else if c.toNat = 0xE0 then ['a', Char.ofNat 0x300]
  else if c.toNat = 0xE2 then ['a', Char.ofNat 0x302]
  else if c.toNat = 0xE7 then ['c', Char.ofNat 0x327]
  else if c.toNat = 0xE8 then ['e', Char.ofNat 0x300]
  else if c.toNat = 0xE9 then ['e', Char.ofNat 0x301]
  else if c.toNat = 0xEA then ['e', Char.ofNat 0x302]
  else if c.toNat = 0xEB then ['e', Char.ofNat 0x308]
  else if c.toNat = 0xEE then ['i', Char.ofNat 0x302]
  else if c.toNat = 0xEF then ['i', Char.ofNat 0x308]
  else if c.toNat = 0xF4 then ['o', Char.ofNat 0x302]
  else if c.toNat = 0xF6 then ['o', Char.ofNat 0x308]
  else if c.toNat = 0xF9 then ['u', Char.ofNat 0x300]
  else if c.toNat = 0xFB then ['u', Char.ofNat 0x302]
  else if c.toNat = 0xFC then ['u', Char.ofNat 0x308]
  else [c]

/-- Step 1 of normalize_name: name.replace(u2019, apos).replace(u2018, apos). -/
def mapApostrophes (s : List Char) : List Char :=
  s.map (fun c => if c.toNat = 0x2019 ∨ c.toNat = 0x2018 then apos else c)

/-- Step 3 of normalize_name: encode("ascii", "ignore") keeps exactly the
characters with codepoint below 128. -/
def encodeAsciiIgnore (s : List Char) : List Char :=
  s.filter (fun c => c.toNat < 128)

/-- Python str.lower restricted to ASCII input (normalize_name applies it after
the ASCII filter, so only the A-Z range is relevant). -/
def lowerChar (c : Char) : Char :=
  if 65 ≤ c.toNat ∧ c.toNat ≤ 90 then Char.ofNat (c.toNat + 32) else c

/-- The character class [a-z0-9] of the re.sub pattern in normalize_name. -/
def isAlnum (c : Char) : Bool :=
  (decide (97 ≤ c.toNat) && decide (c.toNat ≤ 122)) ||
  (decide (48 ≤ c.toNat) && decide (c.toNat ≤ 57))

/-- Characters that may appear in an identifier: [a-z0-9_]. -/
def isIdent (c : Char) : Bool :=
  isAlnum c || decide (c.toNat = 95)

/-- Implements re.sub of the pattern matching one or more characters outside
[a-z0-9] by a single underscore: the flag records whether the previous
character was part of a run already replaced. -/
def collapseGo : Bool → List Char → List Char
  | _, [] => []
  | prevSep, c :: rest =>
    if isAlnum c then c :: collapseGo false rest
    else if prevSep then collapseGo true rest
    else usep :: collapseGo true rest

/-- Step 5 of normalize_name: collapse each maximal run of characters outside
[a-z0-9] to a single underscore. -/
def collapseRuns (s : List Char) : List Char := collapseGo false s

/-- Step 6 of normalize_name: str.strip of the underscore character. -/
def stripSep (s : List Char) : List Char :=
  (((s.dropWhile (fun c => decide (c.toNat = 95))).reverse.dropWhile
      (fun c => decide (c.toNat = 95))).reverse)

/-- The character-level pipeline of normalize_name. -/
def normList (s : List Char) : List Char :=
  stripSep (collapseRuns ((encodeAsciiIgnore
    ((mapApostrophes s).flatMap nfkd)).map lowerChar))

/-- normalize_name from src/scrape_flags.py lines 27-46; the identical function
appears in src/scrape_flags_proportions.py lines 28-48. -/
def normalize_name (s : String) : String := ⟨normList s.data⟩

/-- Combining-mark test used by the spec-worded variant of the normalizer:
the combining diacritical marks block U+0300 to U+036F, which covers every
mark produced by the decomposition table above. -/
def isCombiningMark (c : Char) : Bool :=
  decide (0x300 ≤ c.toNat) && decide (c.toNat ≤ 0x36F)

/-- Modelled from the spec words of claim C5, which say step 3 strips only the
non-ASCII combining marks and keeps non-ASCII base letters as characters that
then become separators.  Differs from the code, which drops every non-ASCII
character. -/
def normalizeKeepingBaseLetters (s : String) : String :=
  ⟨stripSep (collapseRuns ((((mapApostrophes s.data).flatMap nfkd).filter
    (fun c => !(isCombiningMark c))).map lowerChar))⟩

/-- Maximal-run formulation of step 5, following the spec words: each maximal
run of characters outside [a-z0-9] is replaced by a single separator.  Fuel is
the length of the list, which suffices because every step consumes at least
one character. -/
def collapseMaxGo : Nat → List Char → List Char
  | 0, s => s
  | _ + 1, [] => []
  | fuel + 1, c :: rest =>
    if isAlnum c then c :: collapseMaxGo fuel rest
    else usep :: collapseMaxGo fuel (rest.dropWhile (fun d => !(isAlnum d)))

/-- Spec-worded collapse of maximal non-alphanumeric runs. -/
def collapseSpec (s : List Char) : List Char := collapseMaxGo s.length s

/-- Modelled from the spec, amended: the six-step normalizer whose third step
drops every non-ASCII character (combining marks and non-ASCII base letters
alike), with step 5 phrased as maximal-run replacement. -/
def normalizeSpecAmended (s : String) : String :=
  ⟨stripSep (collapseSpec ((encodeAsciiIgnore
    ((mapApostrophes s.data).flatMap nfkd)).map lowerChar))⟩

/-! URL utilities shared by get_image_url, the extension chooser and the
fallback search. -/

/-- Python str.replace: replace every occurrence of pat by rep, scanning left
to right.  Fuel equals the length of the list; each step consumes at least one
character when pat is nonempty, so the fuel never runs out on the patterns
used here. -/
def replaceAllGo (pat rep : List Char) : Nat → List Char → List Char
  | 0, s => s
  | _ + 1, [] => []
  | fuel + 1, c :: rest =>
    if pat.isPrefixOf (c :: rest) then
      rep ++ replaceAllGo pat rep fuel ((c :: rest).drop pat.length)
    else c :: replaceAllGo pat rep fuel rest

/-- Python s.replace(pat, rep) on strings. -/
def replaceAllS (pat rep s : String) : String :=
  ⟨replaceAllGo pat.data rep.data s.data.length s.data⟩

/-- Python s.startswith(pat). -/
def startsWithS (pat s : String) : Bool := pat.data.isPrefixOf s.data

/-- Python s.endswith(pat). -/
def endsWithS (pat s : String) : Bool := pat.data.isSuffixOf s.data

/-- Python (pat in s): substring containment. -/
def containsSub (pat s : String) : Bool :=
  s.data.tails.any (fun t => pat.data.isPrefixOf t)

/-- Python s.rsplit(sep, 1)[0] for the single-character separator slash: the
part of s before its last slash, or s itself when s has no slash. -/
def rsplitSlashHead (s : String) : String :=
  if s.data.contains (Char.ofNat 47) then
    ⟨((s.data.reverse.dropWhile (fun c => !(decide (c.toNat = 47)))).drop 1).reverse⟩
  else s

/-- get_image_url from src/scrape_flags.py lines 63-82 (identical in
src/scrape_flags_proportions.py lines 51-70), modelled on the src attribute of
the img tag: empty src yields the empty string; a src that does not start with
http is prefixed with the protocol; a thumbnail URL is rewritten to the
original by removing every /thumb/ segment and dropping the final
size-suffixed path segment. -/
def get_image_url (src : String) : String :=
  if src = "" then ""
  else
    let src1 := if startsWithS "http" src then src else "https:" ++ src
    if containsSub "/thumb/" src1 then
      rsplitSlashHead (replaceAllS "/thumb/" "/" src1)
    else src1

/-- Python str.lower on a whole string (ASCII range, as in the code the input
at this point is either an URL or has been ASCII-filtered). -/
def lowerStr (s : String) : String := ⟨s.data.map lowerChar⟩

/-- Python url.split("?")[0]: the part of the URL before the first question
mark. -/
def stripQuery (url : String) : String :=
  ⟨url.data.takeWhile (fun c => !(decide (c.toNat = 63)))⟩

/-- Extension selection from src/scrape_flags.py lines 144-151 (identical in
src/scrape_flags_proportions.py lines 282-289): drop query parameters,
lowercase, then test the suffixes .svg, .jpg, .jpeg, defaulting to .png. -/
def chooseExtension (url : String) : String :=
  let p := lowerStr (stripQuery url)
  if endsWithS ".svg" p then ".svg"
  else if endsWithS ".jpg" p || endsWithS ".jpeg" p then ".jpg"
  else ".png"

/-! The resilient downloader: the retry loop of src/scrape_flags.py lines
156-175 (budget 5) and src/scrape_flags_proportions.py lines 294-318
(budget 3). -/

/-- Outcome of one GET attempt: a 200 with body, an HTTP error status raised
by raise_for_status, or a transport-level failure (timeout, connection
error). -/
inductive Outcome
  | ok
  | httpErr (status : Nat)
  | netErr
deriving DecidableEq

/-- Result of the download loop: whether it succeeded, how many GET attempts
were issued, and the backoff sleeps performed in order (seconds). -/
structure FetchRes where
  success : Bool
  attempts : Nat
  sleeps : List Nat
deriving DecidableEq

/-- The body of the retry loop: rem attempts remain, i attempts were already
made.  A 200 stores the file and breaks with success; a 429 sleeps
2^(attempt+1) seconds and retries; any other HTTP error and any transport
failure break immediately. -/
def fetchGo (rs : Nat → Outcome) : Nat → Nat → FetchRes
  | 0, _ => { success := false, attempts := 0, sleeps := [] }
  | rem + 1, i =>
    match rs i with
    | Outcome.ok => { success := true, attempts := 1, sleeps := [] }
    | Outcome.httpErr s =>
      if s = 429 then
        let r := fetchGo rs rem (i + 1)
        { success := r.success, attempts := r.attempts + 1,
          sleeps := 2 ^ (i + 1) :: r.sleeps }
      else { success := false, attempts := 1, sleeps := [] }
    | Outcome.netErr => { success := false, attempts := 1, sleeps := [] }

/-- The download retry loop with attempt budget n, responses given by the
oracle rs (rs i is the outcome of the i-th GET of this candidate). -/
def fetchLoop (n : Nat) (rs : Nat → Outcome) : FetchRes := fetchGo rs n 0

/-! The resumable catalog: the Python dict drapeaux (identifier to label) and
the JSON file it is saved to. -/

/-- One catalog entry: identifier and original label. -/
abbrev Entry := String × String

/-- The in-memory catalog, modelling the Python dict in insertion order. -/
abbrev Catalog := List Entry

/-- Dict lookup drapeaux.get(k). -/
def lookupCat (k : String) : Catalog → Option String
  | [] => none
  | (k0, v0) :: rest => if k0 = k then some v0 else lookupCat k rest

/-- Dict assignment drapeaux[k] = v: update in place keeps the position of an
existing key, a new key is appended. -/
def insertCat (k v : String) : Catalog → Catalog
  | [] => [(k, v)]
  | (k0, v0) :: rest =>
    if k0 = k then (k0, v) :: rest else (k0, v0) :: insertCat k v rest

/-- Codepoint-lexicographic string comparison, modelling the Python string
order used by sorted. -/
def lexLe : List Char → List Char → Bool
  | [], _ => true
  | _ :: _, [] => false
  | a :: as, b :: bs =>
    if a.toNat < b.toNat then true
    else if b.toNat < a.toNat then false
    else lexLe as bs

/-- Pair order on entries; every reachable catalog has pairwise distinct
identifiers, so comparison on the identifier decides the Python pair order. -/
def entryLe (p q : Entry) : Bool := lexLe p.1.data q.1.data

/-- Insertion step of the sort. -/
def insertSorted (p : Entry) : List Entry → List Entry
  | [] => [p]
  | q :: rest => if entryLe p q then p :: q :: rest else q :: insertSorted p rest

/-- Python dict(sorted(drapeaux.items())): the catalog entries sorted by
identifier. -/
def sortEntries (m : Catalog) : List Entry := m.foldr insertSorted []

/-- File-system operations the save code can perform on the catalog store.
truncateTarget models open(JSON_FILE, "w"); writeTarget models the
incremental serialization of one entry by json.dump; the temp-file operations
and the rename exist so that write-to-temp-then-replace schemes can be
expressed and compared against what the code emits. -/
inductive FsOp
  | truncateTarget
  | writeTarget (e : Entry)
  | truncateTemp
  | writeTemp (e : Entry)
  | renameTempToTarget
deriving DecidableEq

/-- Contents of the target store file and of a hypothetical temp file, each as
the decoded list of entries readable from it. -/
structure Store where
  target : List Entry
  temp : List Entry
deriving DecidableEq

/-- Effect of one file-system operation. -/
def applyOp (st : Store) : FsOp → Store
  | FsOp.truncateTarget => { st with target := [] }
  | FsOp.writeTarget e => { st with target := st.target ++ [e] }
  | FsOp.truncateTemp => { st with temp := [] }
  | FsOp.writeTemp e => { st with temp := st.temp ++ [e] }
  | FsOp.renameTempToTarget => { target := st.temp, temp := [] }

/-- Run a list of file-system operations. -/
def runOps (st : Store) (ops : List FsOp) : Store := ops.foldl applyOp st

/-- The operations emitted by the save in src/scrape_flags.py lines 181-184
(identical in src/scrape_flags_proportions.py lines 324-327): open the target
with mode w, which truncates it in place, then dump the sorted entries. -/
def saveOps (m : Catalog) : List FsOp :=
  FsOp.truncateTarget :: (sortEntries m).map FsOp.writeTarget

/-- The operations of one commit: insert the entry into the dict, then save
the whole dict sorted. -/
def commitOps (m : Catalog) (k v : String) : List FsOp :=
  saveOps (insertCat k v m)

/-! The orchestrator of the gallery pipeline: the per-cell body of main in
src/scrape_flags.py lines 112-186. -/

/-- One gallery table cell, after HTML parsing: whether it holds an img with
class mw-file-element, whether its visible text contains the word Drapeau,
the text of its last hyperlink (empty when the cell has no links), and the
src attribute of the img. -/
structure Cell where
  hasFileImage : Bool
  textHasDrapeau : Bool
  label : String
  imgSrc : String

/-- Result of processing one cell: the catalog afterwards, the URLs requested
over the network in order, and how many errors were counted. -/
structure CellResult where
  catalog : Catalog
  requests : List String
  errorsDelta : Nat
deriving DecidableEq

/-- The per-cell body of main in src/scrape_flags.py lines 112-186: skip cells
without a file image, without the Drapeau marker, without a label, with an
empty identifier, or whose identifier is already in the catalog; otherwise
resolve the image URL, download with budget 5, and on success commit the
entry. -/
def processCell (m : Catalog) (c : Cell) (rs : Nat → Outcome) : CellResult :=
  if !c.hasFileImage then ⟨m, [], 0⟩
  else if !c.textHasDrapeau then ⟨m, [], 0⟩
  else if c.label = "" then ⟨m, [], 0⟩
  else if normalize_name c.label = "" then ⟨m, [], 0⟩
  else if (lookupCat (normalize_name c.label) m).isSome then ⟨m, [], 0⟩
  else
    let url := get_image_url c.imgSrc
    if url = "" then ⟨m, [], 0⟩
    else
      let r := fetchLoop 5 rs
      if r.success then
        ⟨insertCat (normalize_name c.label) c.label m, List.replicate r.attempts url, 0⟩
      else ⟨m, List.replicate r.attempts url, 1⟩

/-! The fallback flag search of src/scrape_flags_proportions.py lines 73-180
and the per-row orchestrator of its main, lines 215-331. -/

/-- Abstraction of one parsed Commons file-description page: the HTTP status
of the GET, the outcome of searching an anchor whose text is one of Original
file, Fichier d origine, Full resolution (some href? when such an anchor
exists, href? being its href attribute), the href attributes of all anchors in
document order, and the src attributes of all img tags. -/
structure FilePage where
  status : Nat
  originalFileHref : Option (Option String)
  hrefs : List String
  imgSrcs : List String
deriving DecidableEq

/-- Network oracle of the search: getPage u is the parsed page returned by a
GET of u (none models a raised request exception); headStatus u is the status
of a HEAD of u (none models a raised exception). -/
structure SearchEnv where
  getPage : String → Option FilePage
  headStatus : String → Option Nat

/-- The special_cases table of src/scrape_flags_proportions.py lines 93-108. -/
def specialCases (country : String) : Option (List String) :=
  if country = "République tchèque" then
    some ["Flag_of_the_Czech_Republic.svg", "Flag_of_Czech_Republic.svg"]
  else if country = "Birmanie (Myanmar)" then
    some ["Flag_of_Myanmar.svg", "Flag_of_Burma.svg"]
  else if country = "Chypre du Nord" then
    some ["Flag_of_Northern_Cyprus.svg",
      "Flag_of_the_Turkish_Republic_of_Northern_Cyprus.svg"]
  else if country = "Taïwan" then
    some ["Flag_of_Taiwan.svg", "Flag_of_the_Republic_of_China.svg"]
  else if country = "Transnistrie" then
    some ["Flag_of_Transnistria.svg", "Flag_of_Pridnestrovie.svg"]
  else if country = "Abkhazie" then some ["Flag_of_Abkhazia.svg"]
  else if country = "Haut-Karabagh" then
    some ["Flag_of_Nagorno-Karabakh.svg", "Flag_of_Artsakh.svg"]
  else if country = "Ossétie du Sud" then some ["Flag_of_South_Ossetia.svg"]
  else if country = "République arabe sahraouie démocratique" then
    some ["Flag_of_the_Sahrawi_Arab_Democratic_Republic.svg"]
  else if country = "Somaliland" then some ["Flag_of_Somaliland.svg"]
  else if country = "Macao" then some ["Flag_of_Macau.svg"]
  else if country = "Hong Kong" then some ["Flag_of_Hong_Kong.svg"]
  else if country = "Polynésie française" then
    some ["Flag_of_French_Polynesia.svg"]
  else if country = "Porto Rico" then some ["Flag_of_Puerto_Rico.svg"]
  else none

/-- country_name.replace(space, underscore). -/
def spacesToUnderscores (s : String) : String :=
  ⟨s.data.map (fun c => if c.toNat = 32 then usep else c)⟩

/-- The generic candidate filenames of lines 85-90. -/
def genericFlagNames (country : String) : List String :=
  let u := spacesToUnderscores country
  ["Flag_of_" ++ u ++ ".svg", "Flag_of_" ++ u ++ ".png",
   "Flag_of_the_" ++ u ++ ".svg", "Flag_of_the_" ++ u ++ ".png"]

/-- Lines 110-111: a special-case country replaces the generic candidate list
by its curated list; otherwise the generic candidates are used. -/
def candidateFlagNames (country : String) : List String :=
  match specialCases country with
  | some names => names
  | none => genericFlagNames country

/-- The file-description page URL of line 117. -/
def commonsUrl (flagName : String) : String :=
  "https://commons.wikimedia.org/wiki/File:" ++ flagName

/-- flag_name.replace(".svg", "").replace(".png", "") of lines 139 and 149. -/
def flagStem (flagName : String) : String :=
  replaceAllS ".png" "" (replaceAllS ".svg" "" flagName)

/-- The href canonicalization of lines 153-159 for a link found by the
anchor-text search. -/
def canonHref (u : String) : String :=
  if startsWithS "//" u then "https:" ++ u
  else if startsWithS "/" u then "https://commons.wikimedia.org" ++ u
  else u

/-- The matching condition of lines 136-141 and 146-151: the URL mentions the
asset host, contains the probed filename stem, and is not a thumbnail. -/
def assetMatch (flagName u : String) : Bool :=
  containsSub "upload.wikimedia.org" u && containsSub (flagStem flagName) u &&
    !(containsSub "/thumb/" u)

/-- Lines 121-159: what one fetched description page yields for one candidate
filename.  On a 200, an anchor found by text short-circuits the other two
methods and yields its canonicalized href when it has one; otherwise the
anchors and then the img tags are scanned for an asset-host match, returned
raw. -/
def tryPage (flagName : String) (page : FilePage) : Option String :=
  if page.status = 200 then
    match page.originalFileHref with
    | some href? =>
      match href? with
      | some u => some (canonHref u)
      | none => none
    | none =>
      match page.hrefs.find? (assetMatch flagName) with
      | some h => some h
      | none =>
        match page.imgSrcs.find? (assetMatch flagName) with
        | some h => some h
        | none => none
  else none

/-- The loop of lines 114-163 over the candidate filenames, also returning the
trace of page URLs requested, in order.  A request exception (getPage none) is
caught and the loop continues. -/
def searchLoop (env : SearchEnv) : List String → Option String × List String
  | [] => (none, [])
  | n :: rest =>
    let u := commonsUrl n
    match env.getPage u with
    | none =>
      let r := searchLoop env rest
      (r.1, u :: r.2)
    | some page =>
      match tryPage n page with
      | some hit => (some hit, [u])
      | none =>
        let r := searchLoop env rest
        (r.1, u :: r.2)

/-- The guessed direct asset URL of line 170. -/
def guessUrl (flagName : String) : String :=
  "https://upload.wikimedia.org/wikipedia/commons/thumb/a/a0/" ++ flagName ++
    "/320px-" ++ flagName

/-- The last-resort loop of lines 167-175 over the first candidates: HEAD the
guessed URL and on a 200 return it with the thumbnail parts removed. -/
def guessLoop (env : SearchEnv) : List String → Option String × List String
  | [] => (none, [])
  | n :: rest =>
    let u := guessUrl n
    match env.headStatus u with
    | some 200 =>
      (some (replaceAllS ("/320px-" ++ n) "" (replaceAllS "/thumb" "" u)), [u])
    | _ =>
      let r := guessLoop env rest
      (r.1, u :: r.2)

/-- search_flag_in_page of src/scrape_flags_proportions.py lines 73-180,
returning the found URL (empty string for not-found) together with the trace
of URLs requested over the network. -/
def search_flag_in_page (env : SearchEnv) (country : String) : String × List String :=
  let cands := candidateFlagNames country
  let r1 := searchLoop env cands
  match r1.1 with
  | some u => (u, r1.2)
  | none =>
    let r2 := guessLoop env (cands.take 2)
    match r2.1 with
    | some u => (u, r1.2 ++ r2.2)
    | none => ("", r1.2 ++ r2.2)

/-- One proportions table row after HTML parsing and link filtering (lines
222-244): the usable hyperlink texts of its first cell, and the src attribute
of the first img of that cell when one exists. -/
structure Row where
  countryLinks : List String
  imgSrc : Option String

/-- Result of processing one row: catalog, processed-country set (as a list),
network request trace, and errors counted. -/
structure RowResult where
  catalog : Catalog
  processed : List String
  requests : List String
  errorsDelta : Nat
deriving DecidableEq

/-- The per-row body of main in src/scrape_flags_proportions.py lines 221-331:
take the first usable link text as the country name, skip names already
processed, record the name as processed, skip empty identifiers and
identifiers already in the catalog, resolve the image URL from the cell or
else by search_flag_in_page, count an error when nothing is found, otherwise
download with budget 3 and on success commit the entry. -/
def processRow (m : Catalog) (processed : List String) (row : Row)
    (env : SearchEnv) (rs : Nat → Outcome) : RowResult :=
  match row.countryLinks.head? with
  | none => ⟨m, processed, [], 0⟩
  | some name =>
    if name ∈ processed then ⟨m, processed, [], 0⟩
    else
      let processed1 := name :: processed
      if normalize_name name = "" then ⟨m, processed1, [], 0⟩
      else if (lookupCat (normalize_name name) m).isSome then ⟨m, processed1, [], 0⟩
      else
        let fromCell := match row.imgSrc with
          | some s => get_image_url s
          | none => ""
        let found := if fromCell = "" then search_flag_in_page env name
          else (fromCell, [])
        if found.1 = "" then ⟨m, processed1, found.2, 1⟩
        else
          let r := fetchLoop 3 rs
          if r.success then
            ⟨insertCat (normalize_name name) name m, processed1,
              found.2 ++ List.replicate r.attempts found.1, 0⟩
          else ⟨m, processed1, found.2 ++ List.replicate r.attempts found.1, 1⟩

/-! Predicates used to state the identifier-shape invariants. -/

/-- No two consecutive underscores. -/
def noDoubleSep : List Char → Bool
  | [] => true
  | [_] => true
  | a :: b :: rest =>
    !(decide (a.toNat = 95) && decide (b.toNat = 95)) && noDoubleSep (b :: rest)

/-- The underscore-adjacency relation behind noDoubleSep. -/
def sepOk (a b : Char) : Prop := ¬(a.toNat = 95 ∧ b.toNat = 95)

/-- Canonical identifier shape: only characters of [a-z0-9_], no leading or
trailing underscore, no two consecutive underscores. -/
def isCanonical (s : String) : Bool :=
  s.data.all isIdent && noDoubleSep s.data &&
    !(decide (s.data.head? = some usep)) && !(decide (s.data.getLast? = some usep))

/-- The label of the spec example, spelled with the plain apostrophe exactly
as in the source docstrings. -/
def coteDIvoire : String := "Côte d" ++ ⟨[apos]⟩ ++ "Ivoire"

/-- A description page whose GET returned 404, used by concrete scenarios. -/
def failPage : FilePage :=
  { status := 404, originalFileHref := none, hrefs := [], imgSrcs := [] }

/-- An environment in which every page GET returns the failing page and every
HEAD probe returns 404. -/
def envAllFail : SearchEnv :=
  { getPage := fun _ => some failPage, headStatus := fun _ => some 404 }

/-- An environment in which every request raises. -/
def envNone : SearchEnv :=
  { getPage := fun _ => none, headStatus := fun _ => none }

/-- A description page carrying an original-file anchor with a
scheme-relative href. -/
def hitPageX : FilePage :=
  { status := 200, originalFileHref := some (some "//up/x.svg"),
    hrefs := [], imgSrcs := [] }

/-- An environment in which exactly the description page of Flag_of_X.svg
answers, with hitPageX. -/
def envHitX : SearchEnv :=
  { getPage := fun u => if u = commonsUrl "Flag_of_X.svg" then some hitPageX else none,
    headStatus := fun _ => none }

/-! ## Helper lemmas -/

theorem collapseGo_true_eq (s : List Char) :
    collapseGo true s = collapseGo false (s.dropWhile (fun d => !(isAlnum d))) := by
  induction s with
  | nil => rfl
  | cons d ds ih =>
    by_cases h : isAlnum d
    · rw [List.dropWhile_cons_of_neg (by simp [h])]
      simp [collapseGo, h]
    · rw [List.dropWhile_cons_of_pos (by simp [h])]
      simpa [collapseGo, h] using ih

theorem collapseMaxGo_eq_collapseGo :
    ∀ (fuel : Nat) (s : List Char), s.length ≤ fuel →
      collapseMaxGo fuel s = collapseGo false s := by
  intro fuel
  induction fuel with
  | zero =>
    intro s hs
    have : s = [] := List.length_eq_zero.mp (Nat.le_zero.mp hs)
    subst this
    rfl
  | succ n ih =>
    intro s hs
    match s with
    | [] => rfl
    | c :: rest =>
      have hrest : rest.length ≤ n := by simpa using hs
      by_cases h : isAlnum c
      · simp only [collapseMaxGo, collapseGo, h, if_pos]
        rw [ih rest hrest]
      · simp only [collapseMaxGo, collapseGo, h, if_false, Bool.false_eq_true,
          if_neg, reduceIte]
        rw [ih (rest.dropWhile (fun d => !(isAlnum d)))
          (Nat.le_trans (List.dropWhile_suffix _).length_le hrest)]
        rw [collapseGo_true_eq]

theorem collapseSpec_eq_collapseRuns (s : List Char) :
    collapseSpec s = collapseRuns s :=
  collapseMaxGo_eq_collapseGo s.length s (Nat.le_refl _)

theorem char_eq_of_toNat_eq {a b : Char} (h : a.toNat = b.toNat) : a = b := by
  cases a with
  | mk v hv =>
    cases b with
    | mk w hw =>
      simp only [Char.toNat] at h
      congr 1
      exact UInt32.toNat.inj h

theorem head?_dropWhile_false (p : Char → Bool) :
    ∀ (l : List Char) (c : Char), (l.dropWhile p).head? = some c → p c = false := by
  intro l
  induction l with
  | nil => intro c h; simp [List.dropWhile] at h
  | cons a as ih =>
    intro c h
    by_cases hp : p a
    · rw [List.dropWhile_cons_of_pos hp] at h
      exact ih c h
    · rw [List.dropWhile_cons_of_neg hp] at h
      simp only [List.head?_cons, Option.some.injEq] at h
      subst h
      simpa using hp

theorem isAlnum_ne_sep {c : Char} (h : isAlnum c = true) : c.toNat ≠ 95 := by
  simp only [isAlnum, Bool.or_eq_true, Bool.and_eq_true, decide_eq_true_eq] at h
  omega

theorem isIdent_of_alnum {c : Char} (h : isAlnum c = true) : isIdent c = true := by
  simp [isIdent, h]

theorem isIdent_usep : isIdent usep = true := by decide

theorem mem_collapseGo_ident :
    ∀ (s : List Char) (b : Bool) (c : Char), c ∈ collapseGo b s → isIdent c = true := by
  intro s
  induction s with
  | nil => intro b c hc; simp [collapseGo] at hc
  | cons a as ih =>
    intro b c hc
    by_cases h : isAlnum a
    · simp only [collapseGo, h, if_pos, List.mem_cons] at hc
      rcases hc with hc | hc
      · subst hc; exact isIdent_of_alnum h
      · exact ih false c hc
    · cases b with
      | true =>
        simp only [collapseGo, h, Bool.false_eq_true, if_false, if_true, reduceIte] at hc
        exact ih true c hc
      | false =>
        simp only [collapseGo, h, Bool.false_eq_true, if_false, reduceIte,
          List.mem_cons] at hc
        rcases hc with hc | hc
        · subst hc; exact isIdent_usep
        · exact ih true c hc

theorem head?_collapseGo_true :
    ∀ (s : List Char) (c : Char), (collapseGo true s).head? = some c → isAlnum c = true := by
  intro s
  induction s with
  | nil => intro c h; simp [collapseGo] at h
  | cons a as ih =>
    intro c h
    by_cases ha : isAlnum a
    · simp only [collapseGo, ha, if_pos, List.head?_cons, Option.some.injEq] at h
      subst h; exact ha
    · simp only [collapseGo, ha, Bool.false_eq_true, if_false, if_true, reduceIte] at h
      exact ih c h

theorem chain'_collapseGo :
    ∀ (s : List Char) (b : Bool), List.Chain' sepOk (collapseGo b s) := by
  intro s
  induction s with
  | nil => intro b; simp [collapseGo]
  | cons a as ih =>
    intro b
    by_cases h : isAlnum a
    · simp only [collapseGo, h, if_pos]
      rw [List.chain'_cons']
      refine ⟨fun y hy => ?_, ih false⟩
      exact fun hcon => isAlnum_ne_sep h hcon.1
    · cases b with
      | true =>
        simp only [collapseGo, h, Bool.false_eq_true, if_false, if_true, reduceIte]
        exact ih true
      | false =>
        simp only [collapseGo, h, Bool.false_eq_true, if_false, reduceIte]
        rw [List.chain'_cons']
        refine ⟨fun y hy => ?_, ih true⟩
        have := head?_collapseGo_true as y hy
        exact fun hcon => isAlnum_ne_sep this hcon.2

theorem noDoubleSep_iff_chain' :
    ∀ (l : List Char), noDoubleSep l = true ↔ List.Chain' sepOk l := by
  intro l
  induction l with
  | nil => simp [noDoubleSep]
  | cons a as ih =>
    cases as with
    | nil => simp [noDoubleSep, sepOk]
    | cons b bs =>
      rw [List.chain'_cons, ← ih]
      simp only [noDoubleSep, Bool.and_eq_true, Bool.not_eq_true', sepOk]
      constructor
      · rintro ⟨h1, h2⟩
        refine ⟨fun hcon => ?_, h2⟩
        simp only [Bool.and_eq_false_iff, decide_eq_false_iff_not] at h1
        rcases h1 with h1 | h1
        · exact h1 hcon.1
        · exact h1 hcon.2
      · rintro ⟨h1, h2⟩
        refine ⟨?_, h2⟩
        by_cases ha : a.toNat = 95
        · by_cases hb : b.toNat = 95
          · exact absurd ⟨ha, hb⟩ h1
          · simp [ha, hb]
        · simp [ha]

theorem sepOk_symm {a b : Char} (h : sepOk a b) : sepOk b a := by
  simp only [sepOk] at h ⊢
  exact fun hcon => h ⟨hcon.2, hcon.1⟩

theorem chain'_reverse_sepOk {l : List Char} (h : List.Chain' sepOk l) :
    List.Chain' sepOk l.reverse := by
  rw [List.chain'_reverse]
  exact h.imp (fun a b hab => sepOk_symm hab)

theorem stripSep_subset {l : List Char} {c : Char} (h : c ∈ stripSep l) : c ∈ l := by
  simp only [stripSep, List.mem_reverse] at h
  have h2 := (List.dropWhile_suffix _).subset h
  rw [List.mem_reverse] at h2
  exact (List.dropWhile_suffix _).subset h2

theorem getLast?_stripSep {l : List Char} {c : Char}
    (h : (stripSep l).getLast? = some c) : c.toNat ≠ 95 := by
  simp only [stripSep, List.getLast?_reverse] at h
  have := head?_dropWhile_false _ _ _ h
  simpa using this

theorem head?_stripSep {l : List Char} {c : Char}
    (h : (stripSep l).head? = some c) : c.toNat ≠ 95 := by
  simp only [stripSep, List.head?_reverse] at h
  set u := l.dropWhile (fun c => decide (c.toNat = 95)) with hu
  set X := u.reverse.dropWhile (fun c => decide (c.toNat = 95)) with hX
  have hXne : X ≠ [] := by
    intro hcon
    rw [hcon] at h
    simp at h
  obtain ⟨t, ht⟩ := List.dropWhile_suffix
    (l := u.reverse) (fun c => decide (c.toNat = 95))
  have hw : u.reverse.getLast? = some c := by
    rw [← ht, List.getLast?_append_of_ne_nil t hXne]
    exact h
  rw [List.getLast?_reverse] at hw
  have := head?_dropWhile_false _ _ _ hw
  simpa using this

theorem chain'_stripSep {l : List Char} (h : List.Chain' sepOk l) :
    List.Chain' sepOk (stripSep l) := by
  have h1 : List.Chain' sepOk (l.dropWhile (fun c => decide (c.toNat = 95))) :=
    h.suffix (List.dropWhile_suffix _)
  have h2 := chain'_reverse_sepOk h1
  have h3 : List.Chain' sepOk
      ((l.dropWhile (fun c => decide (c.toNat = 95))).reverse.dropWhile
        (fun c => decide (c.toNat = 95))) :=
    h2.suffix (List.dropWhile_suffix _)
  exact chain'_reverse_sepOk h3

theorem usep_toNat : usep.toNat = 95 := by decide

theorem eq_usep_of_toNat {c : Char} (h : c.toNat = 95) : c = usep :=
  char_eq_of_toNat_eq (by rw [h, usep_toNat])

theorem canonical_normList (s : List Char) :
    (∀ c ∈ normList s, isIdent c = true) ∧ List.Chain' sepOk (normList s) ∧
      (normList s).head? ≠ some usep ∧ (normList s).getLast? ≠ some usep := by
  refine ⟨fun c hc => ?_, ?_, fun hcon => ?_, fun hcon => ?_⟩
  · exact mem_collapseGo_ident _ false c (stripSep_subset hc)
  · exact chain'_stripSep (chain'_collapseGo _ false)
  · exact head?_stripSep hcon usep_toNat
  · exact getLast?_stripSep hcon usep_toNat

theorem isIdent_lt128 {c : Char} (h : isIdent c = true) : c.toNat < 128 := by
  simp only [isIdent, isAlnum, Bool.or_eq_true, Bool.and_eq_true,
    decide_eq_true_eq] at h
  omega

theorem map_eq_self_of {f : Char → Char} :
    ∀ (l : List Char), (∀ a ∈ l, f a = a) → l.map f = l := by
  intro l
  induction l with
  | nil => intro _; rfl
  | cons a as ih =>
    intro h
    simp only [List.map_cons, h a (by simp)]
    rw [ih (fun x hx => h x (by simp [hx]))]

theorem flatMap_eq_self_of {f : Char → List Char} :
    ∀ (l : List Char), (∀ a ∈ l, f a = [a]) → l.flatMap f = l := by
  intro l
  induction l with
  | nil => intro _; rfl
  | cons a as ih =>
    intro h
    simp only [List.flatMap_cons, h a (by simp)]
    rw [ih (fun x hx => h x (by simp [hx]))]
    rfl

theorem nfkd_ascii {c : Char} (h : c.toNat < 128) : nfkd c = [c] := by
  simp [nfkd, h]

theorem lowerChar_ident {c : Char} (h : isIdent c = true) : lowerChar c = c := by
  have h1 := isIdent_lt128 h
  simp only [isIdent, isAlnum, Bool.or_eq_true, Bool.and_eq_true,
    decide_eq_true_eq] at h
  simp only [lowerChar]
  rw [if_neg]
  omega

theorem collapse_fix :
    ∀ (t : List Char), (∀ c ∈ t, isIdent c = true) → List.Chain' sepOk t →
      collapseGo false t = t := by
  intro t
  induction t with
  | nil => intro _ _; rfl
  | cons c rest ih =>
    intro hid hch
    have hidc : isIdent c = true := hid c (by simp)
    have hidrest : ∀ x ∈ rest, isIdent x = true := fun x hx => hid x (by simp [hx])
    have hchrest : List.Chain' sepOk rest := (List.chain'_cons'.mp hch).2
    by_cases h : isAlnum c
    · simp only [collapseGo, h, if_pos]
      rw [ih hidrest hchrest]
    · have hc95 : c.toNat = 95 := by
        simp only [isIdent, Bool.or_eq_true, decide_eq_true_eq] at hidc
        rcases hidc with hidc | hidc
        · exact absurd hidc (by simp [h])
        · exact hidc
      have hcu : c = usep := eq_usep_of_toNat hc95
      simp only [collapseGo, h, Bool.false_eq_true, if_false, reduceIte]
      rw [← hcu]
      congr 1
      cases rest with
      | nil => rfl
      | cons d ds =>
        have hsep : sepOk c d := (List.chain'_cons.mp hch).1
        have hd95 : d.toNat ≠ 95 := fun hcon => hsep ⟨hc95, hcon⟩
        have hda : isAlnum d = true := by
          have := hidrest d (by simp)
          simp only [isIdent, Bool.or_eq_true, decide_eq_true_eq] at this
          rcases this with h2 | h2
          · exact h2
          · exact absurd h2 hd95
        have : collapseGo true (d :: ds) = collapseGo false (d :: ds) := by
          simp [collapseGo, hda]
        rw [this, ih hidrest hchrest]

theorem dropWhile95_id {l : List Char} (h : l.head? ≠ some usep) :
    l.dropWhile (fun c => decide (c.toNat = 95)) = l := by
  cases l with
  | nil => rfl
  | cons c rest =>
    rw [List.dropWhile_cons_of_neg]
    simp only [List.head?_cons, ne_eq, Option.some.injEq] at h
    simp only [decide_eq_true_eq]
    exact fun hcon => h (eq_usep_of_toNat hcon)

theorem stripSep_id {l : List Char} (h1 : l.head? ≠ some usep)
    (h2 : l.getLast? ≠ some usep) : stripSep l = l := by
  simp only [stripSep]
  rw [dropWhile95_id h1]
  rw [dropWhile95_id (by rwa [List.head?_reverse])]
  exact List.reverse_reverse l

theorem normList_fix (t : List Char) (hid : ∀ c ∈ t, isIdent c = true)
    (hch : List.Chain' sepOk t) (hh : t.head? ≠ some usep)
    (hl : t.getLast? ≠ some usep) : normList t = t := by
  have hlt : ∀ c ∈ t, c.toNat < 128 := fun c hc => isIdent_lt128 (hid c hc)
  simp only [normList, collapseRuns]
  rw [show mapApostrophes t = t from map_eq_self_of t (fun a ha => by
    have h128 := hlt a ha
    have hno : ¬(a.toNat = 0x2019 ∨ a.toNat = 0x2018) := by omega
    simp [hno])]
  rw [flatMap_eq_self_of t (fun a ha => nfkd_ascii (hlt a ha))]
  rw [show encodeAsciiIgnore t = t from List.filter_eq_self.mpr (fun a ha => by
    simpa using hlt a ha)]
  rw [map_eq_self_of t (fun a ha => lowerChar_ident (hid a ha))]
  rw [collapse_fix t hid hch]
  exact stripSep_id hh hl

theorem normList_idem (s : List Char) : normList (normList s) = normList s := by
  obtain ⟨h1, h2, h3, h4⟩ := canonical_normList s
  exact normList_fix _ h1 h2 h3 h4

theorem data_normalize (s : String) : (normalize_name s).data = normList s.data := rfl

/-! ## Claim theorems -/

/-- C5 (amended): normalize is total and computes the six-step algorithm in
which step 3 drops every non-ASCII character (combining marks and non-ASCII
base letters alike), with step 5 understood as replacing each maximal run of
characters outside [a-z0-9] by a single separator and step 6 trimming leading
and trailing separators. -/
theorem normalize_name_eq_amended_spec (s : String) :
    normalize_name s = normalizeSpecAmended s := by
  simp only [normalize_name, normList, normalizeSpecAmended]
  rw [collapseSpec_eq_collapseRuns]

/-- C5 counterexample: the claimed algorithm keeps non-ASCII base letters as
characters that then become separators, so on the input with a non-ASCII base
letter between two ASCII letters it yields a separator, while the code deletes
the letter and joins the neighbours. -/
theorem normalize_name_keep_base_letters_cex :
    normalize_name "aøb" = "ab" ∧ normalizeKeepingBaseLetters "aøb" = "a_b" := by
  constructor
  · decide
  · decide

/-- C6: the three normalization examples of the spec hold on the code. -/
theorem normalize_name_spec_examples :
    normalize_name coteDIvoire = "cote_d_ivoire" ∧
    normalize_name "États-Unis" = "etats_unis" ∧
    normalize_name "République démocratique du Congo" =
      "republique_democratique_du_congo" := by
  refine ⟨by decide, by decide, by decide⟩

/-- C9: normalize is idempotent on every input already in canonical form. -/
theorem normalize_name_idempotent_on_canonical (x : String)
    (_h : isCanonical x = true) :
    normalize_name (normalize_name x) = normalize_name x :=
  congrArg String.mk (normList_idem x.data)

/-- Witness for C9 at a concrete canonical input. -/
theorem normalize_name_idempotent_on_canonical_witness :
    isCanonical "cote_d_ivoire" = true ∧
    normalize_name (normalize_name "cote_d_ivoire") =
      normalize_name "cote_d_ivoire" :=
  ⟨by decide, normalize_name_idempotent_on_canonical "cote_d_ivoire" (by decide)⟩

/-- C10: every output of normalize uses only characters of [a-z0-9_], never
starts or ends with an underscore and never contains two consecutive
underscores, and normalize is idempotent on every input. -/
theorem normalize_name_invariants (s : String) :
    isCanonical (normalize_name s) = true ∧
    normalize_name (normalize_name s) = normalize_name s := by
  obtain ⟨h1, h2, h3, h4⟩ := canonical_normList s.data
  refine ⟨?_, congrArg String.mk (normList_idem s.data)⟩
  simp only [isCanonical, data_normalize, Bool.and_eq_true, List.all_eq_true,
    Bool.not_eq_true', decide_eq_false_iff_not]
  exact ⟨⟨⟨h1, (noDoubleSep_iff_chain' _).mpr h2⟩, h3⟩, h4⟩

theorem fetchGo_429_ok (rs : Nat → Outcome) :
    ∀ (k rem i : Nat), (∀ j, j < k → rs (i + j) = Outcome.httpErr 429) →
      k < rem → rs (i + k) = Outcome.ok →
      fetchGo rs rem i = { success := true, attempts := k + 1,
                           sleeps := (List.range k).map (fun j => 2 ^ (i + j + 1)) } := by
  intro k
  induction k with
  | zero =>
    intro rem i _ hrem hk
    obtain ⟨rem1, rfl⟩ := Nat.exists_eq_succ_of_ne_zero (Nat.pos_iff_ne_zero.mp hrem)
    simp only [fetchGo]
    rw [show rs i = Outcome.ok by simpa using hk]
    simp
  | succ k ih =>
    intro rem i h429 hrem hk
    obtain ⟨rem1, rfl⟩ := Nat.exists_eq_succ_of_ne_zero
      (Nat.pos_iff_ne_zero.mp (Nat.lt_of_le_of_lt (Nat.zero_le _) hrem))
    simp only [fetchGo]
    rw [show rs i = Outcome.httpErr 429 by simpa using h429 0 (Nat.succ_pos k)]
    simp only [reduceIte]
    rw [ih rem1 (i + 1)
      (fun j hj => by
        have := h429 (j + 1) (by omega)
        simpa [Nat.add_assoc, Nat.add_comm 1 j] using this)
      (by omega)
      (by simpa [Nat.add_assoc, Nat.add_comm 1 k] using hk)]
    simp only [FetchRes.mk.injEq, List.range_succ_eq_map, List.map_cons,
      List.map_map, Nat.add_zero]
    refine ⟨trivial, trivial, ?_⟩
    congr 1
    apply List.map_congr_left
    intro j hj
    simp only [Function.comp_apply]
    congr 1
    omega

theorem fetchGo_429_abort (rs : Nat → Outcome) :
    ∀ (k rem i : Nat), (∀ j, j < k → rs (i + j) = Outcome.httpErr 429) →
      k < rem →
      ((∃ s, rs (i + k) = Outcome.httpErr s ∧ s ≠ 429) ∨ rs (i + k) = Outcome.netErr) →
      fetchGo rs rem i = { success := false, attempts := k + 1,
                           sleeps := (List.range k).map (fun j => 2 ^ (i + j + 1)) } := by
  intro k
  induction k with
  | zero =>
    intro rem i _ hrem hk
    obtain ⟨rem1, rfl⟩ := Nat.exists_eq_succ_of_ne_zero (Nat.pos_iff_ne_zero.mp hrem)
    simp only [fetchGo]
    rcases hk with ⟨s, hs, hne⟩ | hn
    · rw [show rs i = Outcome.httpErr s by simpa using hs]
      simp [hne]
    · rw [show rs i = Outcome.netErr by simpa using hn]
      simp
  | succ k ih =>
    intro rem i h429 hrem hk
    obtain ⟨rem1, rfl⟩ := Nat.exists_eq_succ_of_ne_zero
      (Nat.pos_iff_ne_zero.mp (Nat.lt_of_le_of_lt (Nat.zero_le _) hrem))
    simp only [fetchGo]
    rw [show rs i = Outcome.httpErr 429 by simpa using h429 0 (Nat.succ_pos k)]
    simp only [reduceIte]
    rw [ih rem1 (i + 1)
      (fun j hj => by
        have := h429 (j + 1) (by omega)
        simpa [Nat.add_assoc, Nat.add_comm 1 j] using this)
      (by omega)
      (by
        rcases hk with ⟨s, hs, hne⟩ | hn
        · exact Or.inl ⟨s, by simpa [Nat.add_assoc, Nat.add_comm 1 k] using hs, hne⟩
        · exact Or.inr (by simpa [Nat.add_assoc, Nat.add_comm 1 k] using hn))]
    simp only [FetchRes.mk.injEq, List.range_succ_eq_map, List.map_cons,
      List.map_map, Nat.add_zero]
    refine ⟨trivial, trivial, ?_⟩
    congr 1
    apply List.map_congr_left
    intro j hj
    simp only [Function.comp_apply]
    congr 1
    omega

theorem fetchGo_attempts_le (rs : Nat → Outcome) :
    ∀ (n i : Nat), (fetchGo rs n i).attempts ≤ n := by
  intro n
  induction n with
  | zero => intro i; simp [fetchGo]
  | succ n ih =>
    intro i
    simp only [fetchGo]
    cases rs i with
    | ok => simp
    | httpErr s =>
      by_cases hs : s = 429
      · simp only [hs, if_pos rfl]
        exact Nat.succ_le_succ (ih (i + 1))
      · simp [hs]
    | netErr => simp

/-- C3: the downloader retries only on HTTP 429 with sleeps 2^(attempt+1);
three consecutive 429 responses followed by a 200 give exactly the sleeps
2, 4, 8 before the fourth attempt succeeds (within the gallery budget of 5);
a non-429 HTTP error or a transport failure aborts right after its attempt
with no further attempt and no additional sleep; and no attempt sequence
exceeds its budget (5 for the gallery pipeline, 3 for the proportions
pipeline). -/
theorem downloader_retry_policy (rs : Nat → Outcome) :
    ((∀ j, j < 3 → rs j = Outcome.httpErr 429) → rs 3 = Outcome.ok →
      fetchLoop 5 rs = { success := true, attempts := 4, sleeps := [2, 4, 8] }) ∧
    (∀ n k s, k < n → (∀ j, j < k → rs j = Outcome.httpErr 429) →
      rs k = Outcome.httpErr s → s ≠ 429 →
      fetchLoop n rs = { success := false, attempts := k + 1,
                         sleeps := (List.range k).map (fun j => 2 ^ (j + 1)) }) ∧
    (∀ n k, k < n → (∀ j, j < k → rs j = Outcome.httpErr 429) →
      rs k = Outcome.netErr →
      fetchLoop n rs = { success := false, attempts := k + 1,
                         sleeps := (List.range k).map (fun j => 2 ^ (j + 1)) }) ∧
    (∀ n, (fetchLoop n rs).attempts ≤ n) := by
  refine ⟨?_, ?_, ?_, ?_⟩
  · intro h429 hok
    have := fetchGo_429_ok rs 3 5 0 (fun j hj => by simpa using h429 j hj)
      (by omega) (by simpa using hok)
    rw [fetchLoop, this]
    decide
  · intro n k s hk h429 hs hne
    have := fetchGo_429_abort rs k n 0 (fun j hj => by simpa using h429 j hj)
      hk (Or.inl ⟨s, by simpa using hs, hne⟩)
    rw [fetchLoop, this]
    simp
  · intro n k hk h429 hn
    have := fetchGo_429_abort rs k n 0 (fun j hj => by simpa using h429 j hj)
      hk (Or.inr (by simpa using hn))
    rw [fetchLoop, this]
    simp
  · intro n
    exact fetchGo_attempts_le rs n 0

/-- Witness for C3: the backoff scenario, an immediate non-429 abort, an
immediate transport abort, and the proportions budget, at concrete response
sequences. -/
theorem downloader_retry_policy_witness :
    fetchLoop 5 (fun i => if i < 3 then Outcome.httpErr 429 else Outcome.ok) =
      { success := true, attempts := 4, sleeps := [2, 4, 8] } ∧
    fetchLoop 5 (fun _ => Outcome.httpErr 404) =
      { success := false, attempts := 1, sleeps := [] } ∧
    fetchLoop 3 (fun _ => Outcome.netErr) =
      { success := false, attempts := 1, sleeps := [] } ∧
    (fetchLoop 3 (fun _ => Outcome.httpErr 429)).attempts ≤ 3 := by
  refine ⟨?_, ?_, ?_, ?_⟩
  · exact (downloader_retry_policy _).1 (by decide) (by decide)
  · have := (downloader_retry_policy (fun _ => Outcome.httpErr 404)).2.1 5 0 404
      (by decide) (by decide) rfl (by decide)
    simpa using this
  · have := (downloader_retry_policy (fun _ => Outcome.netErr)).2.2.1 3 0
      (by decide) (by decide) rfl
    simpa using this
  · exact (downloader_retry_policy _).2.2.2 3

/-- C7: the locator rewrites a thumbnail rendition URL to the original
full-resolution URL, removing the thumbnail marker segment and the trailing
size-suffixed filename segment, and a scheme-relative source URL is prefixed
with the protocol before this rewrite. -/
theorem thumbnail_rewrite :
    get_image_url
        "//upload.wikimedia.org/wikipedia/commons/thumb/7/77/Flag.svg/120px-Flag.svg.png" =
      "https://upload.wikimedia.org/wikipedia/commons/7/77/Flag.svg" ∧
    get_image_url
        "https://upload.wikimedia.org/wikipedia/commons/thumb/7/77/Flag.svg/120px-Flag.svg.png" =
      "https://upload.wikimedia.org/wikipedia/commons/7/77/Flag.svg" := by
  refine ⟨by decide, by decide⟩

/-- C8: the stored extension is always one of .svg, .jpg, .png, chosen by
case-insensitive inspection of the URL path with query parameters removed,
defaulting to .png when the suffix is unrecognized. -/
theorem extension_selection (url : String) :
    (chooseExtension url = ".svg" ∨ chooseExtension url = ".jpg" ∨
      chooseExtension url = ".png") ∧
    (endsWithS ".svg" (lowerStr (stripQuery url)) = true →
      chooseExtension url = ".svg") ∧
    (endsWithS ".svg" (lowerStr (stripQuery url)) = false →
      (endsWithS ".jpg" (lowerStr (stripQuery url)) = true ∨
        endsWithS ".jpeg" (lowerStr (stripQuery url)) = true) →
      chooseExtension url = ".jpg") ∧
    (endsWithS ".svg" (lowerStr (stripQuery url)) = false →
      endsWithS ".jpg" (lowerStr (stripQuery url)) = false →
      endsWithS ".jpeg" (lowerStr (stripQuery url)) = false →
      chooseExtension url = ".png") := by
  simp only [chooseExtension]
  by_cases h1 : endsWithS ".svg" (lowerStr (stripQuery url)) = true
  · simp [h1]
  · by_cases h2 : endsWithS ".jpg" (lowerStr (stripQuery url)) = true
    · simp [h1, h2]
    · by_cases h3 : endsWithS ".jpeg" (lowerStr (stripQuery url)) = true
      · simp [h1, h2, h3]
      · simp [h1, h2, h3]

/-- Witness for C8 at concrete URLs covering the three branches. -/
theorem extension_selection_witness :
    chooseExtension "https://x/a.SVG?download=1" = ".svg" ∧
    chooseExtension "https://x/photo.JPeG" = ".jpg" ∧
    chooseExtension "https://x/a.bmp" = ".png" :=
  ⟨(extension_selection _).2.1 (by decide),
   (extension_selection _).2.2.1 (by decide) (Or.inr (by decide)),
   (extension_selection _).2.2.2 (by decide) (by decide) (by decide)⟩

theorem lexLe_total : ∀ (a b : List Char), lexLe a b = true ∨ lexLe b a = true := by
  intro a
  induction a with
  | nil => intro b; left; rfl
  | cons x xs ih =>
    intro b
    cases b with
    | nil => right; rfl
    | cons y ys =>
      simp only [lexLe]
      by_cases h1 : x.toNat < y.toNat
      · left; simp [h1]
      · by_cases h2 : y.toNat < x.toNat
        · right; simp [h1, h2]
        · rcases ih ys with h | h
          · left; simp [h1, h2, h]
          · right; simp [h1, h2, h]

theorem entryLe_total (p q : Entry) : entryLe p q = true ∨ entryLe q p = true :=
  lexLe_total p.1.data q.1.data

theorem head?_insertSorted (p : Entry) (l : List Entry) :
    (insertSorted p l).head? = some p ∨ (insertSorted p l).head? = l.head? := by
  cases l with
  | nil => left; rfl
  | cons q rest =>
    by_cases h : entryLe p q
    · left; simp [insertSorted, h]
    · right; simp [insertSorted, h]

theorem chain'_insertSorted :
    ∀ (l : List Entry) (p : Entry),
      List.Chain' (fun a b => entryLe a b = true) l →
      List.Chain' (fun a b => entryLe a b = true) (insertSorted p l) := by
  intro l
  induction l with
  | nil => intro p _; simp [insertSorted]
  | cons q rest ih =>
    intro p hch
    by_cases h : entryLe p q
    · simp only [insertSorted, h, if_pos]
      exact List.chain'_cons'.mpr ⟨fun y hy => by
        simp only [List.head?_cons, Option.mem_def, Option.some.injEq] at hy
        subst hy
        exact h, hch⟩
    · simp only [insertSorted, h, Bool.false_eq_true, if_false, reduceIte]
      apply List.chain'_cons'.mpr
      refine ⟨fun y hy => ?_, ih p (List.chain'_cons'.mp hch).2⟩
      rcases head?_insertSorted p rest with h2 | h2
      · rw [h2] at hy
        simp only [Option.mem_def, Option.some.injEq] at hy
        subst hy
        rcases entryLe_total p q with h3 | h3
        · exact absurd h3 (by simpa using h)
        · exact h3
      · rw [h2] at hy
        exact (List.chain'_cons'.mp hch).1 y hy

theorem chain'_sortEntries (m : Catalog) :
    List.Chain' (fun a b => entryLe a b = true) (sortEntries m) := by
  induction m with
  | nil => simp [sortEntries]
  | cons e rest ih => exact chain'_insertSorted _ e ih

theorem foldl_writeTarget :
    ∀ (l : List Entry) (st : Store),
      List.foldl applyOp st (l.map FsOp.writeTarget) =
        { target := st.target ++ l, temp := st.temp } := by
  intro l
  induction l with
  | nil => intro st; simp
  | cons e es ih =>
    intro st
    simp only [List.map_cons, List.foldl_cons, applyOp]
    rw [ih]
    simp

theorem runOps_saveOps (st : Store) (m : Catalog) :
    runOps st (saveOps m) = { target := sortEntries m, temp := st.temp } := by
  simp only [runOps, saveOps, List.foldl_cons, applyOp]
  rw [foldl_writeTarget]
  simp

/-- C2 (amended): every commit rewrites the entire persisted store sorted by
identifier, but it does so by truncating the target file in place and
rewriting it; no write-to-temp-then-rename operation occurs in the emitted
operation sequence. -/
theorem catalog_commit_rewrites_sorted (st : Store) (m : Catalog) (k v : String) :
    runOps st (commitOps m k v) =
      { target := sortEntries (insertCat k v m), temp := st.temp } ∧
    List.Chain' (fun a b => entryLe a b = true) (sortEntries (insertCat k v m)) ∧
    FsOp.renameTempToTarget ∉ commitOps m k v := by
  refine ⟨runOps_saveOps st _, chain'_sortEntries _, ?_⟩
  simp only [commitOps, saveOps, List.mem_cons, List.mem_map]
  rintro (h | ⟨e, _, h⟩) <;> exact FsOp.noConfusion h

/-- C2 counterexample: committing the entry b onto the store already holding
a and c truncates the target in place; interrupted right after the truncate
the store is empty (both previously persisted entries are lost, not at most
one), and interrupted after three operations it holds a half-written list
that is neither the prior snapshot nor the new one; no rename-into-place
operation exists in the emitted sequence, so the rewrite is not
write-to-temp-then-replace. -/
theorem catalog_commit_not_atomic_cex :
    (runOps { target := [("a", "x"), ("c", "y")], temp := [] }
        ((commitOps [("a", "x"), ("c", "y")] "b" "z").take 1)).target = [] ∧
    (runOps { target := [("a", "x"), ("c", "y")], temp := [] }
        ((commitOps [("a", "x"), ("c", "y")] "b" "z").take 3)).target =
      [("a", "x"), ("b", "z")] ∧
    ([("a", "x"), ("b", "z")] ≠ [("a", "x"), ("c", "y")]) ∧
    ([("a", "x"), ("b", "z")] ≠ sortEntries (insertCat "b" "z" [("a", "x"), ("c", "y")])) ∧
    FsOp.renameTempToTarget ∉ commitOps [("a", "x"), ("c", "y")] "b" "z" := by
  refine ⟨by decide, by decide, by decide, by decide, by decide⟩

theorem insertCat_idem (k v : String) :
    ∀ (m : Catalog), insertCat k v (insertCat k v m) = insertCat k v m := by
  intro m
  induction m with
  | nil => simp [insertCat]
  | cons e rest ih =>
    by_cases h : e.1 = k
    · simp [insertCat, h]
    · simp only [insertCat, h, Bool.false_eq_true, if_false, reduceIte]
      rw [ih]

/-- C1: a candidate whose normalized identifier is already in the catalog is
skipped before any network request in both pipelines (the result carries the
unchanged catalog and an empty request trace), and committing the same entry
twice leaves both the in-memory mapping and the stored sorted mapping exactly
as after the first commit. -/
theorem dedup_skip_before_network :
    (∀ (m : Catalog) (c : Cell) (rs : Nat → Outcome),
      (lookupCat (normalize_name c.label) m).isSome = true →
      processCell m c rs = ⟨m, [], 0⟩) ∧
    (∀ (m : Catalog) (processed : List String) (row : Row) (env : SearchEnv)
        (rs : Nat → Outcome) (name : String),
      row.countryLinks.head? = some name → name ∉ processed →
      (lookupCat (normalize_name name) m).isSome = true →
      processRow m processed row env rs = ⟨m, name :: processed, [], 0⟩) ∧
    (∀ (m : Catalog) (k v : String),
      insertCat k v (insertCat k v m) = insertCat k v m ∧
      sortEntries (insertCat k v (insertCat k v m)) = sortEntries (insertCat k v m)) := by
  refine ⟨?_, ?_, ?_⟩
  · intro m c rs h
    simp only [processCell]
    by_cases h1 : c.hasFileImage
    · by_cases h2 : c.textHasDrapeau
      · by_cases h3 : c.label = ""
        · simp [h1, h2, h3]
        · by_cases h4 : normalize_name c.label = ""
          · simp [h1, h2, h3, h4]
          · simp [h1, h2, h3, h4, h]
      · simp [h1, h2]
    · simp [h1]
  · intro m processed row env rs name hhead hmem h
    simp only [processRow, hhead]
    by_cases h4 : normalize_name name = ""
    · simp [hmem, h4]
    · simp [hmem, h4, h]
  · intro m k v
    refine ⟨insertCat_idem k v m, ?_⟩
    rw [insertCat_idem k v m]

/-- Witness for C1 at a concrete loaded catalog and candidate. -/
theorem dedup_skip_before_network_witness :
    processCell [("algerie", "Algérie")]
        { hasFileImage := true, textHasDrapeau := true, label := "Algérie",
          imgSrc := "//u/thumb/a/b/F.svg/1px-F.svg.png" }
        (fun _ => Outcome.ok) =
      { catalog := [("algerie", "Algérie")], requests := [], errorsDelta := 0 } ∧
    processRow [("algerie", "Algérie")] [] { countryLinks := ["Algérie"], imgSrc := none }
        { getPage := fun _ => none, headStatus := fun _ => none }
        (fun _ => Outcome.ok) =
      { catalog := [("algerie", "Algérie")], processed := ["Algérie"],
        requests := [], errorsDelta := 0 } ∧
    insertCat "algerie" "Algérie" (insertCat "algerie" "Algérie" []) =
      insertCat "algerie" "Algérie" [] :=
  ⟨dedup_skip_before_network.1 _ _ _ (by decide),
   dedup_skip_before_network.2.1 _ _ _ _ _ "Algérie" rfl (by decide) (by decide),
   (dedup_skip_before_network.2.2 [] "algerie" "Algérie").1⟩

theorem searchLoop_none (env : SearchEnv) (hg : ∀ u, env.getPage u = none) :
    ∀ (l : List String), (searchLoop env l).1 = none := by
  intro l
  induction l with
  | nil => rfl
  | cons n rest ih =>
    simp only [searchLoop, hg]
    exact ih

theorem guessLoop_none (env : SearchEnv) (hh : ∀ u, env.headStatus u = none) :
    ∀ (l : List String), (guessLoop env l).1 = none := by
  intro l
  induction l with
  | nil => rfl
  | cons n rest ih =>
    simp only [guessLoop, hh]
    exact ih

/-- C4 (amended): when the reference carries no embedded image URL the locator
probes a candidate filename list — the curated override list when the label is
a known special case, which replaces (rather than precedes) the generic
conventional patterns, otherwise the generic patterns — against the
image-description-page endpoint, short-circuiting on the first page that
yields a hit; when every probe fails it falls back to guessed direct
asset-host paths for the first two candidates, and total failure yields
not-found, which makes the orchestrator count an error for the candidate and
continue instead of aborting. -/
theorem search_cascade_behaviour :
    (∀ (env : SearchEnv) (country n : String) (rest : List String)
        (page : FilePage) (u : String),
      candidateFlagNames country = n :: rest →
      env.getPage (commonsUrl n) = some page →
      tryPage n page = some u →
      search_flag_in_page env country = (u, [commonsUrl n])) ∧
    (∀ (env : SearchEnv) (country : String),
      (∀ u, env.getPage u = none) → (∀ u, env.headStatus u = none) →
      (search_flag_in_page env country).1 = "") ∧
    (∀ (m : Catalog) (processed : List String) (row : Row) (env : SearchEnv)
        (rs : Nat → Outcome) (name : String),
      row.countryLinks.head? = some name → name ∉ processed →
      normalize_name name ≠ "" → (lookupCat (normalize_name name) m).isSome = false →
      row.imgSrc = none → (search_flag_in_page env name).1 = "" →
      processRow m processed row env rs =
        ⟨m, name :: processed, (search_flag_in_page env name).2, 1⟩) := by
  refine ⟨?_, ?_, ?_⟩
  · intro env country n rest page u hc henv htry
    simp only [search_flag_in_page, hc, searchLoop, henv, htry]
  · intro env country hg hh
    simp only [search_flag_in_page, searchLoop_none env hg, guessLoop_none env hh]
  · intro m processed row env rs name hhead hmem hnorm hlook himg hfound
    simp only [processRow, hhead, himg]
    simp [hmem, hnorm, hlook, hfound]

/-- Witness for C4 at concrete environments: a first-candidate hit
short-circuits, an all-failing environment yields not-found, and the
orchestrator counts the error and keeps the catalog unchanged. -/
theorem search_cascade_behaviour_witness :
    search_flag_in_page envHitX "X" =
      ("https://up/x.svg", [commonsUrl "Flag_of_X.svg"]) ∧
    (search_flag_in_page envNone "Y").1 = "" ∧
    processRow [] [] { countryLinks := ["Zz"], imgSrc := none } envNone
        (fun _ => Outcome.ok) =
      { catalog := [], processed := ["Zz"],
        requests := (search_flag_in_page envNone "Zz").2, errorsDelta := 1 } :=
  ⟨search_cascade_behaviour.1 envHitX "X" "Flag_of_X.svg"
      ["Flag_of_X.png", "Flag_of_the_X.svg", "Flag_of_the_X.png"]
      hitPageX "https://up/x.svg" (by decide) (by decide) (by decide),
   search_cascade_behaviour.2.1 envNone "Y" (fun _ => rfl) (fun _ => rfl),
   search_cascade_behaviour.2.2 [] [] _ envNone _ "Zz" rfl (by decide) (by decide)
     (by decide) rfl (by decide)⟩

/-- C4 counterexample: for the special-case label with every network probe
failing, the probed URLs are exactly the description pages of the two curated
override filenames followed by the two last-resort guessed asset paths; the
generic conventional pattern for the label is never probed even though every
override probe failed, and no request outside the description-page endpoint
and the guessed asset paths — in particular no structured summary lookup — is
made. -/
theorem search_cascade_cex :
    (search_flag_in_page envAllFail "Taïwan").2 =
      [commonsUrl "Flag_of_Taiwan.svg",
       commonsUrl "Flag_of_the_Republic_of_China.svg",
       guessUrl "Flag_of_Taiwan.svg",
       guessUrl "Flag_of_the_Republic_of_China.svg"] ∧
    commonsUrl "Flag_of_Taïwan.svg" ∉ (search_flag_in_page envAllFail "Taïwan").2 ∧
    (search_flag_in_page envAllFail "Taïwan").1 = "" := by
  refine ⟨by decide, by decide, by decide⟩

end Flagame
